import Mathlib

set_option maxHeartbeats 1000000

/-!
Shallow embedding of the find/replace engine in porcupine/plugins/find.py
(class Finder).  The text buffer is a list of characters addressed by
natural-number positions; the host text widget's primitives (forward
substring search, tag ranges, selection, insertion cursor) are embedded as
pure functions and as fields of an explicit widget-state record.  Matches
are half-open pairs (start, end) of buffer positions.
-/

/-- Whether the search string occurs in the buffer at position i, that is,
the pattern equals the slice of the buffer starting at i. -/
def matchesAt (buf pat : List Char) (i : Nat) : Bool :=
  List.take pat.length (List.drop i buf) == pat

/-- The host text widget's forward search primitive,
textwidget.search(pattern, index, 'end'): the first position at or after
the given start position where the pattern occurs, none when there is no
occurrence between that position and the end of the buffer. -/
def search (buf pat : List Char) (start : Nat) : Option Nat :=
  List.find? (fun i => decide (start ≤ i) && matchesAt buf pat i)
    (List.range (buf.length + 1))

/-- The scan loop of Finder.highlight_all_matches, embedded from the source:
search from pos; when a match is found at s, record (s, s + pattern length)
and continue searching from s + 1 (the source passes start_index + 1 char,
one character past the START of the match just found; only the very first
search runs from the beginning of the buffer). -/
def scanFrom (buf pat : List Char) (pos : Nat) : List (Nat × Nat) :=
  match h : search buf pat pos with
  | none => []
  | some s => (s, s + pat.length) :: scanFrom buf pat (s + 1)
termination_by buf.length + 1 - pos
decreasing_by
  simp only [search] at h
  have h1 := List.find?_some h
  have h2 := List.mem_of_find?_eq_some h
  simp only [List.mem_range] at h2
  simp only [Bool.and_eq_true, decide_eq_true_eq] at h1
  omega

/-- The rebuild scan as the spec sentence for claim C1 literally words it:
after a match at (s, e) the next search starts at e + 1, one character past
the END of the match.  This definition follows the spec text and exists
only to be compared against scanFrom, which is embedded from the source. -/
def scanSpecFromEnd (buf pat : List Char) (pos : Nat) : List (Nat × Nat) :=
  match h : search buf pat pos with
  | none => []
  | some s => (s, s + pat.length) :: scanSpecFromEnd buf pat (s + pat.length + 1)
termination_by buf.length + 1 - pos
decreasing_by
  simp only [search] at h
  have h1 := List.find?_some h
  have h2 := List.mem_of_find?_eq_some h
  simp only [List.mem_range] at h2
  simp only [Bool.and_eq_true, decide_eq_true_eq] at h1
  omega

/-- Finder.highlight_all_matches, match-set part: an empty search string is
never searched for (the source returns before the loop); otherwise the scan
loop runs from the start of the buffer and the resulting tag ranges are the
Match Set. -/
def highlight_all_matches (buf pat : List Char) : List (Nat × Nat) :=
  if pat = [] then [] else scanFrom buf pat 0

/-- Finder.highlight_all_matches, status-label part: empty search string
clears the status; otherwise the count summary of the scan. -/
def highlight_status (buf pat : List Char) : String :=
  if pat = [] then ""
  else
    let n := (scanFrom buf pat 0).length
    if n = 0 then "Found no matches :("
    else if n = 1 then "Found 1 match."
    else "Found " ++ toString n ++ " matches."

/-- The scan loop of Finder.highlight_all_matches written as the source's
while-True loop with an explicit iteration budget: none means the budget
was exhausted before the loop reached its break, some gives the matches
recorded by the time the loop broke. -/
def scanFuel (buf pat : List Char) : Nat → Nat → Option (List (Nat × Nat))
  | 0, _ => none
  | fuel + 1, pos =>
    match search buf pat pos with
    | none => some []
    | some s =>
      Option.map (fun l => (s, s + pat.length) :: l) (scanFuel buf pat fuel (s + 1))

/-- Two matches overlap when their half-open ranges intersect. -/
def overlap (a b : Nat × Nat) : Prop := a.1 < b.2 ∧ b.1 < a.2

instance (a b : Nat × Nat) : Decidable (overlap a b) :=
  inferInstanceAs (Decidable (a.1 < b.2 ∧ b.1 < a.2))

/-- The state of one Finder widget as far as the engine is concerned: the
buffer content, the find_highlight tag ranges (the Match Set), the sel tag
range, the insert mark, the state of the "Replace this match" button, and
the status label text. -/
structure FinderState where
  buffer : List Char
  matchRanges : List (Nat × Nat)
  selection : Option (Nat × Nat)
  cursor : Nat
  replaceEnabled : Bool
  status : String
deriving DecidableEq

/-- The host-widget calls Finder._replace_this_match performs, recorded so
that their order is observable. -/
inductive FindEvent where
  | removeHighlight : Nat → Nat → FindEvent
  | updateButton : FindEvent
  | replaceRange : Nat → Nat → List Char → FindEvent
  | setCursor : Nat → FindEvent
  | advanceNext : FindEvent
deriving DecidableEq

/-- Finder._update_replace_button: the button is enabled exactly when the
current selection is one of the find_highlight ranges; with no selection it
is disabled. -/
def update_replace_button (st : FinderState) : FinderState :=
  match st.selection with
  | none => { st with replaceEnabled := false }
  | some p => { st with replaceEnabled := decide (p ∈ st.matchRanges) }

/-- Finder._select_range: set the sel tag to the range and the insert mark
to its start. -/
def select_range (st : FinderState) (s e : Nat) : FinderState :=
  { st with selection := some (s, e), cursor := s }

/-- The for-loop of Finder._go_to_next_match: the first pair whose start is
strictly after the cursor. -/
def findFirstAfter (c : Nat) : List (Nat × Nat) → Option (Nat × Nat)
  | [] => none
  | p :: rest => if c < p.1 then some p else findFirstAfter c rest

/-- The for-loop of Finder._go_to_previous_match, which walks the reversed
pair list: the first pair of the given list whose start is strictly before
the cursor. -/
def findFirstBefore (c : Nat) : List (Nat × Nat) → Option (Nat × Nat)
  | [] => none
  | p :: rest => if p.1 < c then some p else findFirstBefore c rest

/-- The match Finder._go_to_next_match selects from a nonempty match list:
the first match starting strictly after the cursor, or the first match of
the list when the for-loop falls through to its else clause. -/
def nextChoice (c : Nat) (pairs : List (Nat × Nat)) (h : pairs ≠ []) : Nat × Nat :=
  match findFirstAfter c pairs with
  | some p => p
  | none => pairs.head h

/-- The match Finder._go_to_previous_match selects from a nonempty match
list: walking the reversed list, the first match starting strictly before
the cursor, or the last match of the list when the loop falls through. -/
def prevChoice (c : Nat) (pairs : List (Nat × Nat)) (h : pairs ≠ []) : Nat × Nat :=
  match findFirstBefore c pairs.reverse with
  | some p => p
  | none => pairs.getLast h

/-- Finder._go_to_next_match: with no matches, set the status label and
change nothing else; otherwise select the chosen match, clear the status,
and update the replace button. -/
def go_to_next_match (st : FinderState) : FinderState :=
  if h : st.matchRanges = [] then { st with status := "No matches found!" }
  else
    let chosen := nextChoice st.cursor st.matchRanges h
    update_replace_button { select_range st chosen.1 chosen.2 with status := "" }

/-- Finder._go_to_previous_match, symmetric to go_to_next_match. -/
def go_to_previous_match (st : FinderState) : FinderState :=
  if h : st.matchRanges = [] then { st with status := "No matches found!" }
  else
    let chosen := prevChoice st.cursor st.matchRanges h
    update_replace_button { select_range st chosen.1 chosen.2 with status := "" }

/-- textwidget.tag_remove('find_highlight', start, end) at the granularity
of the Match Set: the match equal to the removed range disappears. -/
def remove_highlight (st : FinderState) (s e : Nat) : FinderState :=
  { st with matchRanges := st.matchRanges.filter (fun m => decide (m ≠ (s, e))) }

/-- How a buffer position (a tag boundary or mark) moves when the range
[s, e) is replaced by text of length newLen: positions at or before s stay,
positions at or after e shift by the length difference, positions inside
the replaced range collapse to its start. -/
def shiftPos (s e newLen p : Nat) : Nat :=
  if p ≤ s then p
  else if e ≤ p then p - e + (s + newLen)
  else s

/-- textwidget.replace(start, end, text): splice the replacement into the
buffer; remaining tag ranges and the insert mark move with the edit, and
the sel tag vanishes with the deleted characters. -/
def replace_range (st : FinderState) (s e : Nat) (repl : List Char) : FinderState :=
  { st with
    buffer := st.buffer.take s ++ repl ++ st.buffer.drop e,
    matchRanges := st.matchRanges.map
      (fun m => (shiftPos s e repl.length m.1, shiftPos s e repl.length m.2)),
    cursor := shiftPos s e repl.length st.cursor,
    selection := none }

/-- textwidget.mark_set('insert', pos). -/
def set_cursor (st : FinderState) (p : Nat) : FinderState :=
  { st with cursor := p }

/-- Run one host-widget call and record its event after the trace so far. -/
def tracedStep (f : FinderState → FinderState) (ev : FindEvent) :
    FinderState × List FindEvent → FinderState × List FindEvent :=
  fun r => (f r.1, r.2 ++ [ev])

/-- The status message of the invalid-selection path of
Finder._replace_this_match. -/
def clickFirstMsg : String := "Click \"Previous match\" or \"Next match\" first."

/-- The last two lines of Finder._replace_this_match: when the advance just
reported that no matches were found, show the distinct end-of-replacing
message instead. -/
def fix_no_more (st : FinderState) : FinderState :=
  if st.status = "No matches found!"
  then { st with status := "No more matches." } else st

/-- Finder._replace_this_match: with no selection, or a selection that is
not one of the find_highlight ranges, set the status message and do nothing
else.  Otherwise remove the highlight of the matched range, update the
replace button, replace the buffer text of the range, move the insert mark
to the former start, advance with next-match semantics, and finally turn
the "No matches found!" status into "No more matches.". -/
def replace_this_match (st : FinderState) (repl : List Char) :
    FinderState × List FindEvent :=
  match st.selection with
  | none => ({ st with status := clickFirstMsg }, [])
  | some se =>
    if se ∈ st.matchRanges then
      let r :=
        tracedStep go_to_next_match FindEvent.advanceNext
          (tracedStep (set_cursor · se.1) (FindEvent.setCursor se.1)
            (tracedStep (replace_range · se.1 se.2 repl)
              (FindEvent.replaceRange se.1 se.2 repl)
              (tracedStep update_replace_button FindEvent.updateButton
                (tracedStep (remove_highlight · se.1 se.2)
                  (FindEvent.removeHighlight se.1 se.2) (st, [])))))
      (fix_no_more r.1, r.2)
    else ({ st with status := clickFirstMsg }, [])

/-- A successful search result lies between the requested start position and
the end of the buffer. -/
theorem search_some_bounds {buf pat : List Char} {pos s : Nat}
    (h : search buf pat pos = some s) : pos ≤ s ∧ s ≤ buf.length := by
  simp only [search] at h
  have h1 := List.find?_some h
  have h2 := List.mem_of_find?_eq_some h
  simp only [List.mem_range] at h2
  simp only [Bool.and_eq_true, decide_eq_true_eq] at h1
  omega

/-- Unfolding equation of the scan: no further occurrence ends the loop. -/
theorem scanFrom_none {buf pat : List Char} {pos : Nat}
    (hs : search buf pat pos = none) : scanFrom buf pat pos = [] := by
  rw [scanFrom.eq_def]
  split
  · rfl
  · rename_i s heq
    rw [hs] at heq
    cases heq

/-- Unfolding equation of the scan: a match at s is recorded and the loop
continues from s + 1. -/
theorem scanFrom_some {buf pat : List Char} {pos s : Nat}
    (hs : search buf pat pos = some s) :
    scanFrom buf pat pos = (s, s + pat.length) :: scanFrom buf pat (s + 1) := by
  rw [scanFrom.eq_def]
  split
  · rename_i heq
    rw [hs] at heq
    cases heq
  · rename_i s2 heq
    rw [hs] at heq
    injection heq with h2
    subst h2
    rfl

/-- Unfolding equation of the spec-worded scan: loop end. -/
theorem scanSpecFromEnd_none {buf pat : List Char} {pos : Nat}
    (hs : search buf pat pos = none) : scanSpecFromEnd buf pat pos = [] := by
  rw [scanSpecFromEnd.eq_def]
  split
  · rfl
  · rename_i s heq
    rw [hs] at heq
    cases heq

/-- Unfolding equation of the spec-worded scan: a match at s is recorded and
the loop continues from s + pattern length + 1. -/
theorem scanSpecFromEnd_some {buf pat : List Char} {pos s : Nat}
    (hs : search buf pat pos = some s) :
    scanSpecFromEnd buf pat pos =
      (s, s + pat.length) :: scanSpecFromEnd buf pat (s + pat.length + 1) := by
  rw [scanSpecFromEnd.eq_def]
  split
  · rename_i heq
    rw [hs] at heq
    cases heq
  · rename_i s2 heq
    rw [hs] at heq
    injection heq with h2
    subst h2
    rfl

/-- Any iteration budget of at least buffer length + 2 - pos lets the fueled
while-loop reach its break, and the result is the scan of the well-founded
recursion: the loop terminates because every iteration's scan start strictly
increases and never passes the end of the buffer. -/
theorem scanFuel_eq_scanFrom (buf pat : List Char) :
    ∀ (fuel pos : Nat), 0 < fuel → buf.length + 2 ≤ fuel + pos →
      scanFuel buf pat fuel pos = some (scanFrom buf pat pos) := by
  intro fuel
  induction fuel with
  | zero => intro pos h0 _; omega
  | succ f ih =>
    intro pos _ htot
    cases hs : search buf pat pos with
    | none =>
      simp only [scanFuel, hs]
      rw [scanFrom_none hs]
    | some s =>
      obtain ⟨h1, h2⟩ := search_some_bounds hs
      simp only [scanFuel, hs]
      rw [ih (s + 1) (by omega) (by omega), scanFrom_some hs]
      rfl

/-- Properties the fueled scan guarantees whenever it completes: every
recorded match starts at or after the scan start and has the pattern's
length, starts strictly increase along the list, each later match is found
by the search one character past the previous match's start, and the first
match is found by the search from the scan start. -/
theorem scanFuel_sound (buf pat : List Char) :
    ∀ (fuel pos : Nat) (l : List (Nat × Nat)),
      scanFuel buf pat fuel pos = some l →
      (∀ m ∈ l, pos ≤ m.1 ∧ m.2 = m.1 + pat.length) ∧
      List.Pairwise (fun a b => a.1 < b.1) l ∧
      List.Chain' (fun a b => search buf pat (a.1 + 1) = some b.1) l ∧
      (∀ m, l.head? = some m → search buf pat pos = some m.1) := by
  intro fuel
  induction fuel with
  | zero => intro pos l h; simp [scanFuel] at h
  | succ f ih =>
    intro pos l h
    cases hs : search buf pat pos with
    | none =>
      simp only [scanFuel, hs, Option.some_inj] at h
      subst h
      refine ⟨by simp, by simp, by simp, by simp⟩
    | some s =>
      obtain ⟨h1, h2⟩ := search_some_bounds hs
      simp only [scanFuel, hs] at h
      cases hrec : scanFuel buf pat f (s + 1) with
      | none => rw [hrec] at h; simp at h
      | some l2 =>
        rw [hrec] at h
        simp only [Option.map_some', Option.some_inj] at h
        subst h
        obtain ⟨ihm, ihp, ihc, ihh⟩ := ih (s + 1) l2 hrec
        refine ⟨?_, ?_, ?_, ?_⟩
        · intro m hm
          rcases List.mem_cons.mp hm with h3 | h3
          · subst h3; exact ⟨h1, rfl⟩
          · have := (ihm m h3).1
            exact ⟨by omega, (ihm m h3).2⟩
        · refine List.pairwise_cons.mpr ⟨?_, ihp⟩
          intro b hb
          have := (ihm b hb).1
          simpa using by omega
        · refine List.chain'_cons'.mpr ⟨?_, ihc⟩
          intro b hb
          simp only [Option.mem_def] at hb
          exact ihh b hb
        · intro m hm
          simp only [List.head?_cons, Option.some_inj] at hm
          subst hm
          rfl

/-- The properties of scanFuel_sound transported to the scan itself. -/
theorem scanFrom_props (buf pat : List Char) (pos : Nat) :
    (∀ m ∈ scanFrom buf pat pos, pos ≤ m.1 ∧ m.2 = m.1 + pat.length) ∧
    List.Pairwise (fun a b => a.1 < b.1) (scanFrom buf pat pos) ∧
    List.Chain' (fun a b => search buf pat (a.1 + 1) = some b.1)
      (scanFrom buf pat pos) ∧
    (∀ m, (scanFrom buf pat pos).head? = some m →
      search buf pat pos = some m.1) :=
  scanFuel_sound buf pat (buf.length + 2) pos (scanFrom buf pat pos)
    (scanFuel_eq_scanFrom buf pat (buf.length + 2) pos (by omega) (by omega))

/-- The for-loop of go-to-next-match is the first list element whose start
is strictly after the cursor. -/
theorem findFirstAfter_eq_find (c : Nat) (l : List (Nat × Nat)) :
    findFirstAfter c l = List.find? (fun q => decide (c < q.1)) l := by
  induction l with
  | nil => rfl
  | cons p rest ih =>
    by_cases hp : c < p.1
    · simp [findFirstAfter, hp, List.find?_cons]
    · simp [findFirstAfter, hp, List.find?_cons, ih]

/-- A pair returned by the next-match loop is one of the scanned pairs. -/
theorem findFirstAfter_mem {c : Nat} {l : List (Nat × Nat)} {p : Nat × Nat}
    (h : findFirstAfter c l = some p) : p ∈ l := by
  rw [findFirstAfter_eq_find] at h
  exact List.mem_of_find?_eq_some h

/-- A pair returned by the previous-match loop is one of the walked pairs. -/
theorem findFirstBefore_mem {c : Nat} {l : List (Nat × Nat)} {p : Nat × Nat}
    (h : findFirstBefore c l = some p) : p ∈ l := by
  induction l with
  | nil => cases h
  | cons q rest ih =>
    by_cases hq : q.1 < c
    · simp only [findFirstBefore, if_pos hq, Option.some_inj] at h
      subst h; exact List.mem_cons_self q rest
    · simp only [findFirstBefore, if_neg hq] at h
      exact List.mem_cons_of_mem q (ih h)

/-- The chosen next match is one of the current matches. -/
theorem nextChoice_mem (c : Nat) (pairs : List (Nat × Nat)) (h : pairs ≠ []) :
    nextChoice c pairs h ∈ pairs := by
  unfold nextChoice
  cases hf : findFirstAfter c pairs with
  | none => exact List.head_mem h
  | some p => exact findFirstAfter_mem hf

/-- The chosen previous match is one of the current matches. -/
theorem prevChoice_mem (c : Nat) (pairs : List (Nat × Nat)) (h : pairs ≠ []) :
    prevChoice c pairs h ∈ pairs := by
  unfold prevChoice
  cases hf : findFirstBefore c pairs.reverse with
  | none => exact List.getLast_mem h
  | some p => exact List.mem_reverse.mp (findFirstBefore_mem hf)

/-- On a nonempty match list, go-to-next-match selects the chosen match,
places the cursor at its start, clears the status and refreshes the
button; nothing else changes. -/
theorem go_to_next_match_spec (st : FinderState) (h : st.matchRanges ≠ []) :
    go_to_next_match st =
      update_replace_button
        { st with
          selection := some (nextChoice st.cursor st.matchRanges h),
          cursor := (nextChoice st.cursor st.matchRanges h).1,
          status := "" } := by
  unfold go_to_next_match
  rw [dif_neg h]
  rfl

/-- On a nonempty match list, go-to-previous-match selects the chosen match,
places the cursor at its start, clears the status and refreshes the
button; nothing else changes. -/
theorem go_to_previous_match_spec (st : FinderState) (h : st.matchRanges ≠ []) :
    go_to_previous_match st =
      update_replace_button
        { st with
          selection := some (prevChoice st.cursor st.matchRanges h),
          cursor := (prevChoice st.cursor st.matchRanges h).1,
          status := "" } := by
  unfold go_to_previous_match
  rw [dif_neg h]
  rfl

theorem go_next_selection (st : FinderState) (h : st.matchRanges ≠ []) :
    (go_to_next_match st).selection =
      some (nextChoice st.cursor st.matchRanges h) := by
  rw [go_to_next_match_spec st h]; rfl

theorem go_next_cursor (st : FinderState) (h : st.matchRanges ≠ []) :
    (go_to_next_match st).cursor =
      (nextChoice st.cursor st.matchRanges h).1 := by
  rw [go_to_next_match_spec st h]; rfl

theorem go_next_matchRanges (st : FinderState) (h : st.matchRanges ≠ []) :
    (go_to_next_match st).matchRanges = st.matchRanges := by
  rw [go_to_next_match_spec st h]; rfl

theorem go_next_enabled (st : FinderState) (h : st.matchRanges ≠ []) :
    (go_to_next_match st).replaceEnabled =
      decide (nextChoice st.cursor st.matchRanges h ∈ st.matchRanges) := by
  rw [go_to_next_match_spec st h]; rfl

theorem go_prev_selection (st : FinderState) (h : st.matchRanges ≠ []) :
    (go_to_previous_match st).selection =
      some (prevChoice st.cursor st.matchRanges h) := by
  rw [go_to_previous_match_spec st h]; rfl

theorem go_prev_cursor (st : FinderState) (h : st.matchRanges ≠ []) :
    (go_to_previous_match st).cursor =
      (prevChoice st.cursor st.matchRanges h).1 := by
  rw [go_to_previous_match_spec st h]; rfl

theorem go_prev_matchRanges (st : FinderState) (h : st.matchRanges ≠ []) :
    (go_to_previous_match st).matchRanges = st.matchRanges := by
  rw [go_to_previous_match_spec st h]; rfl

theorem go_prev_enabled (st : FinderState) (h : st.matchRanges ≠ []) :
    (go_to_previous_match st).replaceEnabled =
      decide (prevChoice st.cursor st.matchRanges h ∈ st.matchRanges) := by
  rw [go_to_previous_match_spec st h]; rfl

/-- When no walked pair starts before the cursor, the previous-match loop
falls through. -/
theorem findFirstBefore_eq_none (c : Nat) (l : List (Nat × Nat))
    (h : ∀ q ∈ l, ¬ q.1 < c) : findFirstBefore c l = none := by
  induction l with
  | nil => rfl
  | cons q t ih =>
    simp only [findFirstBefore, if_neg (h q (List.mem_cons_self q t))]
    exact ih fun r hr => h r (List.mem_cons_of_mem q hr)

/-- The previous-match loop over a concatenation takes a hit in the first
part when there is one, and otherwise continues into the second. -/
theorem findFirstBefore_append (c : Nat) (l1 l2 : List (Nat × Nat)) :
    findFirstBefore c (l1 ++ l2) =
      match findFirstBefore c l1 with
      | some q => some q
      | none => findFirstBefore c l2 := by
  induction l1 with
  | nil => rfl
  | cons q t ih =>
    by_cases hq : q.1 < c
    · simp [findFirstBefore, hq]
    · simp only [List.cons_append, findFirstBefore, if_neg hq]
      exact ih

/-- When every pair starts after the cursor, the next-match loop takes the
first pair if any. -/
theorem findFirstAfter_head (c : Nat) (l : List (Nat × Nat))
    (h : ∀ q ∈ l, c < q.1) : findFirstAfter c l = l.head? := by
  cases l with
  | nil => rfl
  | cons q t =>
    simp only [findFirstAfter, if_pos (h q (List.mem_cons_self q t)), List.head?_cons]

/-- In a start-sorted pair list, the next-match loop run with the cursor at
the start of the i-th pair finds exactly the (i+1)-th pair, or falls
through past the last pair. -/
theorem findFirstAfter_sorted :
    ∀ (pairs : List (Nat × Nat)),
      List.Pairwise (fun a b => a.1 < b.1) pairs →
      ∀ (i : Nat) (hi : i < pairs.length),
        findFirstAfter ((pairs.get ⟨i, hi⟩).1) pairs = pairs[i + 1]? := by
  intro pairs
  induction pairs with
  | nil => intro _ i hi; simp at hi
  | cons p rest ih =>
    intro hsort i hi
    obtain ⟨hp, hrest⟩ := List.pairwise_cons.mp hsort
    cases i with
    | zero =>
      have hget : ((p :: rest).get ⟨0, hi⟩).1 = p.1 := by simp
      rw [hget, List.getElem?_cons_succ]
      simp only [findFirstAfter, if_neg (lt_irrefl p.1)]
      rw [findFirstAfter_head p.1 rest hp]
      cases rest <;> simp
    | succ k =>
      have hk : k < rest.length := by
        have := Nat.lt_of_succ_lt_succ hi
        simpa using this
      have hget : ((p :: rest).get ⟨k + 1, hi⟩).1 = (rest.get ⟨k, hk⟩).1 := by
        simp [List.get_eq_getElem]
      rw [hget, List.getElem?_cons_succ]
      have hlt : p.1 < (rest.get ⟨k, hk⟩).1 := hp _ (List.get_mem rest k hk)
      simp only [findFirstAfter, if_neg (by omega : ¬ (rest.get ⟨k, hk⟩).1 < p.1)]
      exact ih hrest k hk

/-- In a start-sorted pair list, the previous-match loop run with the
cursor at the start of the first pair falls through: nothing starts before
it. -/
theorem findFirstBefore_sorted_zero :
    ∀ (pairs : List (Nat × Nat)),
      List.Pairwise (fun a b => a.1 < b.1) pairs →
      ∀ (h0 : 0 < pairs.length),
        findFirstBefore ((pairs.get ⟨0, h0⟩).1) pairs.reverse = none := by
  intro pairs hsort h0
  cases pairs with
  | nil => simp at h0
  | cons p rest =>
    obtain ⟨hp, _⟩ := List.pairwise_cons.mp hsort
    show findFirstBefore p.1 (p :: rest).reverse = none
    apply findFirstBefore_eq_none
    intro q hq
    rcases List.mem_cons.mp (List.mem_reverse.mp hq) with h1 | h1
    · subst h1; omega
    · have := hp q h1; omega

/-- In a start-sorted pair list, the previous-match loop run with the
cursor at the start of the (j+1)-th pair finds exactly the j-th pair. -/
theorem findFirstBefore_sorted_succ :
    ∀ (pairs : List (Nat × Nat)),
      List.Pairwise (fun a b => a.1 < b.1) pairs →
      ∀ (j : Nat) (hj : j + 1 < pairs.length),
        findFirstBefore ((pairs.get ⟨j + 1, hj⟩).1) pairs.reverse =
          some (pairs.get ⟨j, Nat.lt_of_succ_lt hj⟩) := by
  intro pairs
  induction pairs with
  | nil => intro _ j hj; simp at hj
  | cons p rest ih =>
    intro hsort j hj
    obtain ⟨hp, hrest⟩ := List.pairwise_cons.mp hsort
    cases j with
    | zero =>
      have h0 : 0 < rest.length := by
        have := Nat.lt_of_succ_lt_succ hj
        simpa using this
      show findFirstBefore ((rest.get ⟨0, h0⟩).1) (p :: rest).reverse = some p
      rw [List.reverse_cons, findFirstBefore_append,
        findFirstBefore_sorted_zero rest hrest h0]
      show findFirstBefore ((rest.get ⟨0, h0⟩).1) [p] = some p
      have hlt : p.1 < (rest.get ⟨0, h0⟩).1 := hp _ (List.get_mem rest 0 h0)
      simp only [findFirstBefore, if_pos hlt]
    | succ k =>
      have hk : k + 1 < rest.length := by
        have := Nat.lt_of_succ_lt_succ hj
        simpa using this
      show findFirstBefore ((rest.get ⟨k + 1, hk⟩).1) (p :: rest).reverse =
        some (rest.get ⟨k, Nat.lt_of_succ_lt hk⟩)
      rw [List.reverse_cons, findFirstBefore_append, ih hrest k hk]

theorem update_replace_button_buffer (st : FinderState) :
    (update_replace_button st).buffer = st.buffer := by
  unfold update_replace_button; cases st.selection <;> rfl

theorem update_replace_button_matchRanges (st : FinderState) :
    (update_replace_button st).matchRanges = st.matchRanges := by
  unfold update_replace_button; cases st.selection <;> rfl

theorem update_replace_button_selection (st : FinderState) :
    (update_replace_button st).selection = st.selection := by
  unfold update_replace_button; cases st.selection <;> rfl

theorem update_replace_button_cursor (st : FinderState) :
    (update_replace_button st).cursor = st.cursor := by
  unfold update_replace_button; cases st.selection <;> rfl

theorem update_replace_button_status (st : FinderState) :
    (update_replace_button st).status = st.status := by
  unfold update_replace_button; cases st.selection <;> rfl

theorem go_next_buffer (st : FinderState) :
    (go_to_next_match st).buffer = st.buffer := by
  unfold go_to_next_match
  split
  · rfl
  · rw [update_replace_button_buffer]
    rfl

theorem go_next_status_of_nil (st : FinderState) (h : st.matchRanges = []) :
    (go_to_next_match st).status = "No matches found!" := by
  unfold go_to_next_match; rw [dif_pos h]

theorem go_next_status_of_ne (st : FinderState) (h : st.matchRanges ≠ []) :
    (go_to_next_match st).status = "" := by
  rw [go_to_next_match_spec st h, update_replace_button_status]

/-- On a selection that equals one of the current matches, the replace
action is the recorded five-step composition, in source order. -/
theorem replace_valid_eq (st : FinderState) (s e : Nat) (repl : List Char)
    (hsel : st.selection = some (s, e)) (hmem : (s, e) ∈ st.matchRanges) :
    replace_this_match st repl =
      (fix_no_more (go_to_next_match (set_cursor (replace_range
          (update_replace_button (remove_highlight st s e)) s e repl) s)),
       [FindEvent.removeHighlight s e, FindEvent.updateButton,
        FindEvent.replaceRange s e repl, FindEvent.setCursor s,
        FindEvent.advanceNext]) := by
  simp only [replace_this_match, hsel, tracedStep]
  rw [if_pos hmem]
  simp

/-- The matches surviving the replace steps before the final advance are
the removed-highlight matches carried through the buffer edit. -/
theorem replace_steps_matchRanges (st : FinderState) (s e : Nat) (repl : List Char) :
    (set_cursor (replace_range
        (update_replace_button (remove_highlight st s e)) s e repl) s).matchRanges =
      (remove_highlight st s e).matchRanges.map
        (fun m => (shiftPos s e repl.length m.1, shiftPos s e repl.length m.2)) := by
  simp only [set_cursor, replace_range, update_replace_button_matchRanges]

/-- The next-match choice from a nonempty list, written as the first list
element starting strictly after the cursor with the head as fallback. -/
theorem nextChoice_eq_getD (c : Nat) (p : Nat × Nat) (rest : List (Nat × Nat)) :
    nextChoice c (p :: rest) (by simp) =
      (List.find? (fun q => decide (c < q.1)) (p :: rest)).getD p := by
  unfold nextChoice
  rw [findFirstAfter_eq_find]
  cases hf : List.find? (fun q => decide (c < q.1)) (p :: rest) <;> simp [hf]

theorem head_eq_get (l : List (Nat × Nat)) (h : l ≠ []) (h0 : 0 < l.length) :
    l.head h = l.get ⟨0, h0⟩ := by
  cases l with
  | nil => simp at h0
  | cons q t => rfl

theorem getLast_eq_get (l : List (Nat × Nat)) (h : l ≠ [])
    (h2 : l.length - 1 < l.length) :
    l.getLast h = l.get ⟨l.length - 1, h2⟩ := by
  rw [List.getLast_eq_getElem]
  simp [List.get_eq_getElem]

theorem prevChoice_congr (c : Nat) {l1 l2 : List (Nat × Nat)} (h12 : l1 = l2)
    (h1 : l1 ≠ []) (h2 : l2 ≠ []) : prevChoice c l1 h1 = prevChoice c l2 h2 := by
  subst h12
  rfl

/-- Claim C9: rebuild with the empty search string yields an empty Match
Set for every buffer content, and the status label is cleared rather than
set to an error message. -/
theorem empty_search_c9 (buf : List Char) :
    highlight_all_matches buf [] = [] ∧ highlight_status buf [] = "" := by
  constructor <;> simp [highlight_all_matches, highlight_status]

/-- Claim C7: for every buffer and non-empty search string, the Match Set
of the rebuild scan is sorted strictly ascending by start position, hence
no two matches share a start. -/
theorem scan_sorted_c7 (buf pat : List Char) (hp : pat ≠ []) :
    List.Pairwise (fun a b => a.1 < b.1) (highlight_all_matches buf pat) := by
  rw [highlight_all_matches, if_neg hp]
  exact (scanFrom_props buf pat 0).2.1

/-- Witness for claim C7 at buffer "ababab", pattern "ab". -/
theorem scan_sorted_c7_witness :
    List.Pairwise (fun a b => a.1 < b.1)
      (highlight_all_matches ['a', 'b', 'a', 'b', 'a', 'b'] ['a', 'b']) :=
  scan_sorted_c7 ['a', 'b', 'a', 'b', 'a', 'b'] ['a', 'b'] (by decide)

/-- Claim C3: the rebuild terminates for every buffer and search string,
empty or not: run as the source's while-True loop with any iteration
budget of at least buffer length + 2, the loop reaches its break and
produces exactly the Match Set of the rebuild; the budget suffices because
each iteration's scan start strictly increases. -/
theorem scan_terminates_c3 (buf pat : List Char) (fuel : Nat)
    (h : buf.length + 2 ≤ fuel) :
    (if pat = [] then some [] else scanFuel buf pat fuel 0)
      = some (highlight_all_matches buf pat) := by
  by_cases hp : pat = []
  · simp [hp, highlight_all_matches]
  · rw [if_neg hp, highlight_all_matches, if_neg hp]
    exact scanFuel_eq_scanFrom buf pat fuel 0 (by omega) (by omega)

/-- Witness for claim C3 at buffer "aaa", pattern "a", budget 5. -/
theorem scan_terminates_c3_witness :
    (if (['a'] : List Char) = [] then some []
      else scanFuel ['a', 'a', 'a'] ['a'] 5 0)
      = some (highlight_all_matches ['a', 'a', 'a'] ['a']) :=
  scan_terminates_c3 ['a', 'a', 'a'] ['a'] 5 (by decide)

/-- Claim C1 as stated is false on the code: on buffer "ababab" with
pattern "ab" the scan records the matches (0,2), (2,4), (4,6), which is
not what an advance-to-match-end-plus-one scan produces (that scan, worded
from the spec, yields (0,2), (4,6)), and consecutive recorded matches are
not related by a search from one past the previous match's end. -/
theorem scan_advance_c1_counterexample :
    highlight_all_matches ['a', 'b', 'a', 'b', 'a', 'b'] ['a', 'b']
        = [(0, 2), (2, 4), (4, 6)] ∧
    highlight_all_matches ['a', 'b', 'a', 'b', 'a', 'b'] ['a', 'b']
        ≠ scanSpecFromEnd ['a', 'b', 'a', 'b', 'a', 'b'] ['a', 'b'] 0 ∧
    ¬ List.Chain'
        (fun a b => search ['a', 'b', 'a', 'b', 'a', 'b'] ['a', 'b'] (a.2 + 1)
          = some b.1)
        (highlight_all_matches ['a', 'b', 'a', 'b', 'a', 'b'] ['a', 'b']) := by
  have h1 : scanFuel ['a', 'b', 'a', 'b', 'a', 'b'] ['a', 'b'] 8 0
      = some [(0, 2), (2, 4), (4, 6)] := by decide
  have h2 := scanFuel_eq_scanFrom ['a', 'b', 'a', 'b', 'a', 'b'] ['a', 'b'] 8 0
    (by omega) (by decide)
  have h3 := Option.some.inj (h2.symm.trans h1)
  have hh : highlight_all_matches ['a', 'b', 'a', 'b', 'a', 'b'] ['a', 'b']
      = [(0, 2), (2, 4), (4, 6)] := by
    rw [highlight_all_matches, if_neg (by decide)]
    exact h3
  have hspec : scanSpecFromEnd ['a', 'b', 'a', 'b', 'a', 'b'] ['a', 'b'] 0
      = [(0, 2), (4, 6)] := by
    rw [scanSpecFromEnd_some (by decide :
      search ['a', 'b', 'a', 'b', 'a', 'b'] ['a', 'b'] 0 = some 0)]
    norm_num
    rw [scanSpecFromEnd_some (by decide :
      search ['a', 'b', 'a', 'b', 'a', 'b'] ['a', 'b'] 3 = some 4)]
    norm_num
    rw [scanSpecFromEnd_none (by decide :
      search ['a', 'b', 'a', 'b', 'a', 'b'] ['a', 'b'] 7 = none)]
  refine ⟨hh, ?_, ?_⟩
  · rw [hh, hspec]
    decide
  · rw [hh]
    intro hch
    rw [List.chain'_cons] at hch
    exact absurd hch.1 (by decide)

/-- Claim C1 amended: the rebuild scan advances the next scan position to
match_start + 1 after each found match, one character past the START of the
previously found match, not one past its end: for a non-empty search
string the first recorded match is found by a search from the beginning of
the buffer, and each later recorded match is found by a search starting
one character past the previous match's start. -/
theorem scan_advance_c1 (buf pat : List Char) (hp : pat ≠ []) :
    List.Chain' (fun a b => search buf pat (a.1 + 1) = some b.1)
      (highlight_all_matches buf pat) ∧
    (∀ m, (highlight_all_matches buf pat).head? = some m →
      search buf pat 0 = some m.1) := by
  rw [highlight_all_matches, if_neg hp]
  exact ⟨(scanFrom_props buf pat 0).2.2.1, (scanFrom_props buf pat 0).2.2.2⟩

/-- Witness for the amended claim C1 at buffer "ababab", pattern "ab". -/
theorem scan_advance_c1_witness :
    List.Chain'
      (fun a b => search ['a', 'b', 'a', 'b', 'a', 'b'] ['a', 'b'] (a.1 + 1)
        = some b.1)
      (highlight_all_matches ['a', 'b', 'a', 'b', 'a', 'b'] ['a', 'b']) ∧
    (∀ m, (highlight_all_matches ['a', 'b', 'a', 'b', 'a', 'b'] ['a', 'b']).head?
        = some m →
      search ['a', 'b', 'a', 'b', 'a', 'b'] ['a', 'b'] 0 = some m.1) :=
  scan_advance_c1 ['a', 'b', 'a', 'b', 'a', 'b'] ['a', 'b'] (by decide)

/-- Claim C2 fails on the code at the very input the source's FIXME flags
as broken: rebuilding with buffer "asasasasa" and search string "asa"
produces the matches (0,3), (2,5), (4,7), (6,9), of which (0,3) and (2,5)
overlap, violating the no-two-matches-overlap invariant. -/
theorem overlap_bug_c2 :
    highlight_all_matches ['a', 's', 'a', 's', 'a', 's', 'a', 's', 'a']
        ['a', 's', 'a'] = [(0, 3), (2, 5), (4, 7), (6, 9)] ∧
    ¬ List.Pairwise (fun a b => ¬ overlap a b)
      (highlight_all_matches ['a', 's', 'a', 's', 'a', 's', 'a', 's', 'a']
        ['a', 's', 'a']) := by
  have h1 : scanFuel ['a', 's', 'a', 's', 'a', 's', 'a', 's', 'a']
      ['a', 's', 'a'] 11 0 = some [(0, 3), (2, 5), (4, 7), (6, 9)] := by decide
  have h2 := scanFuel_eq_scanFrom ['a', 's', 'a', 's', 'a', 's', 'a', 's', 'a']
    ['a', 's', 'a'] 11 0 (by omega) (by decide)
  have h3 := Option.some.inj (h2.symm.trans h1)
  have hh : highlight_all_matches ['a', 's', 'a', 's', 'a', 's', 'a', 's', 'a']
      ['a', 's', 'a'] = [(0, 3), (2, 5), (4, 7), (6, 9)] := by
    rw [highlight_all_matches, if_neg (by decide)]
    exact h3
  refine ⟨hh, ?_⟩
  rw [hh]
  decide

theorem fix_no_more_buffer (st : FinderState) :
    (fix_no_more st).buffer = st.buffer := by
  unfold fix_no_more
  split <;> rfl

/-- Claim C4: on a valid replace (selection exactly equal to a current
match), the replace action performs, in exactly this order: remove the
matched range's highlight, recompute the replace-button enablement,
replace the buffer content of the range with the replacement string, move
the cursor to the former start, then advance with next-match semantics;
the buffer afterwards is the spliced buffer, and when no matches remain
the status shown is "No more matches." rather than "No matches found!";
when matches remain the status is cleared. -/
theorem replace_order_c4 (st : FinderState) (s e : Nat) (repl : List Char)
    (hsel : st.selection = some (s, e)) (hmem : (s, e) ∈ st.matchRanges) :
    (replace_this_match st repl).2 =
      [FindEvent.removeHighlight s e, FindEvent.updateButton,
       FindEvent.replaceRange s e repl, FindEvent.setCursor s,
       FindEvent.advanceNext] ∧
    (replace_this_match st repl).1.buffer =
      st.buffer.take s ++ repl ++ st.buffer.drop e ∧
    ((remove_highlight st s e).matchRanges = [] →
      (replace_this_match st repl).1.status = "No more matches.") ∧
    ((remove_highlight st s e).matchRanges ≠ [] →
      (replace_this_match st repl).1.status = "") := by
  rw [replace_valid_eq st s e repl hsel hmem]
  refine ⟨rfl, ?_, ?_, ?_⟩
  · rw [fix_no_more_buffer, go_next_buffer]
    simp [set_cursor, replace_range, update_replace_button_buffer, remove_highlight]
  · intro h
    have h4 : (set_cursor (replace_range
        (update_replace_button (remove_highlight st s e)) s e repl) s).matchRanges
        = [] := by
      rw [replace_steps_matchRanges, h]
      rfl
    have hst := go_next_status_of_nil _ h4
    show (fix_no_more _).status = _
    unfold fix_no_more
    rw [if_pos hst]
  · intro h
    have h4 : (set_cursor (replace_range
        (update_replace_button (remove_highlight st s e)) s e repl) s).matchRanges
        ≠ [] := by
      rw [replace_steps_matchRanges]
      intro hc
      exact h (List.map_eq_nil_iff.mp hc)
    have hst := go_next_status_of_ne _ h4
    show (fix_no_more _).status = _
    unfold fix_no_more
    rw [if_neg (by rw [hst]; decide)]
    exact hst

/-- Witness for claim C4: replace the match (0,3) of "abcabc" by "xyz"
with pattern matches (0,3) and (3,6) highlighted and (0,3) selected. -/
theorem replace_order_c4_witness :
    (replace_this_match
      ⟨['a', 'b', 'c', 'a', 'b', 'c'], [(0, 3), (3, 6)], some (0, 3), 0, true, ""⟩
      ['x', 'y', 'z']).2 =
      [FindEvent.removeHighlight 0 3, FindEvent.updateButton,
       FindEvent.replaceRange 0 3 ['x', 'y', 'z'], FindEvent.setCursor 0,
       FindEvent.advanceNext] ∧
    (replace_this_match
      ⟨['a', 'b', 'c', 'a', 'b', 'c'], [(0, 3), (3, 6)], some (0, 3), 0, true, ""⟩
      ['x', 'y', 'z']).1.buffer = ['x', 'y', 'z', 'a', 'b', 'c'] ∧
    (replace_this_match
      ⟨['a', 'b', 'c', 'a', 'b', 'c'], [(0, 3), (3, 6)], some (0, 3), 0, true, ""⟩
      ['x', 'y', 'z']).1.status = "" := by
  have h := replace_order_c4
    ⟨['a', 'b', 'c', 'a', 'b', 'c'], [(0, 3), (3, 6)], some (0, 3), 0, true, ""⟩
    0 3 ['x', 'y', 'z'] rfl (by decide)
  exact ⟨h.1, h.2.1, h.2.2.2 (by decide)⟩

/-- Claim C5: whenever the current selection does not exactly equal one of
the current matches (including no selection at all or an empty Match Set),
the replace action only sets the tell-the-user status message; the buffer,
Match Set, selection, cursor and button state are left exactly as they
were, and no host mutation is performed (the event trace is empty). -/
theorem replace_invalid_c5 (st : FinderState) (repl : List Char)
    (h : ∀ m ∈ st.matchRanges, st.selection ≠ some m) :
    replace_this_match st repl = ({ st with status := clickFirstMsg }, []) := by
  cases hsel : st.selection with
  | none => simp [replace_this_match, hsel]
  | some se =>
    have hnot : se ∉ st.matchRanges := fun hm => h se hm hsel
    simp [replace_this_match, hsel, hnot]

/-- Witness for claim C5: replace attempted with an empty Match Set. -/
theorem replace_invalid_c5_witness :
    replace_this_match
      ⟨['a', 'b', 'c'], [], some (0, 1), 0, false, ""⟩ ['x'] =
      ({ buffer := ['a', 'b', 'c'], matchRanges := [], selection := some (0, 1),
         cursor := 0, replaceEnabled := false, status := clickFirstMsg }, []) :=
  replace_invalid_c5 ⟨['a', 'b', 'c'], [], some (0, 1), 0, false, ""⟩ ['x']
    (by simp)

/-- Claim C6: with an empty Match Set, go-to-next-match reports "No matches
found!" and changes nothing else (no selection or cursor change); with a
nonempty Match Set it selects the first match whose start lies strictly
after the cursor, falling back to the first match of the set when no such
match exists. -/
theorem next_match_c6 (st : FinderState) :
    (st.matchRanges = [] →
      go_to_next_match st = { st with status := "No matches found!" }) ∧
    (∀ p rest, st.matchRanges = p :: rest →
      (go_to_next_match st).selection =
        some ((List.find? (fun q => decide (st.cursor < q.1)) (p :: rest)).getD p)) := by
  constructor
  · intro h
    unfold go_to_next_match
    rw [dif_pos h]
  · intro p rest hm
    have hne : st.matchRanges ≠ [] := by rw [hm]; simp
    rw [go_next_selection st hne]
    simp only [hm]
    exact congrArg some (nextChoice_eq_getD st.cursor p rest)

/-- Witness for claim C6: buffer "abc abc", matches (0,3) and (4,7),
cursor at 0; the next match is (4,7). -/
theorem next_match_c6_witness :
    (go_to_next_match
      ⟨['a', 'b', 'c', ' ', 'a', 'b', 'c'], [(0, 3), (4, 7)], none, 0, false, ""⟩
      ).selection = some (4, 7) := by
  have h := (next_match_c6
    ⟨['a', 'b', 'c', ' ', 'a', 'b', 'c'], [(0, 3), (4, 7)], none, 0, false, ""⟩
    ).2 (0, 3) [(4, 7)] rfl
  rw [h]
  decide

/-- Claim C10: after go-to-next-match or go-to-previous-match on a
nonempty Match Set, the selection is exactly the chosen match's range, the
cursor sits at that match's start, and the replace action is enabled,
because the new selection is one of the current matches. -/
theorem nav_selects_match_c10 (st : FinderState) (h : st.matchRanges ≠ []) :
    (∃ m ∈ st.matchRanges,
      (go_to_next_match st).selection = some m ∧
      (go_to_next_match st).cursor = m.1 ∧
      (go_to_next_match st).replaceEnabled = true) ∧
    (∃ m ∈ st.matchRanges,
      (go_to_previous_match st).selection = some m ∧
      (go_to_previous_match st).cursor = m.1 ∧
      (go_to_previous_match st).replaceEnabled = true) := by
  constructor
  · refine ⟨nextChoice st.cursor st.matchRanges h, nextChoice_mem _ _ h,
      go_next_selection st h, go_next_cursor st h, ?_⟩
    rw [go_next_enabled st h]
    exact decide_eq_true (nextChoice_mem _ _ h)
  · refine ⟨prevChoice st.cursor st.matchRanges h, prevChoice_mem _ _ h,
      go_prev_selection st h, go_prev_cursor st h, ?_⟩
    rw [go_prev_enabled st h]
    exact decide_eq_true (prevChoice_mem _ _ h)

/-- Witness for claim C10 at matches (0,3) and (4,7) with cursor 0. -/
theorem nav_selects_match_c10_witness :
    (go_to_next_match
      ⟨['a', 'b', 'c', ' ', 'a', 'b', 'c'], [(0, 3), (4, 7)], none, 0, false, ""⟩
      ).replaceEnabled = true ∧
    (go_to_previous_match
      ⟨['a', 'b', 'c', ' ', 'a', 'b', 'c'], [(0, 3), (4, 7)], none, 0, false, ""⟩
      ).replaceEnabled = true := by
  obtain ⟨⟨m, hm, h1, h2, h3⟩, ⟨m2, hm2, h4, h5, h6⟩⟩ := nav_selects_match_c10
    ⟨['a', 'b', 'c', ' ', 'a', 'b', 'c'], [(0, 3), (4, 7)], none, 0, false, ""⟩
    (by decide)
  exact ⟨h3, h6⟩

/-- Claim C8: when the Match Set is sorted by start, has more than one
element, and is unchanged between the calls, go-to-next-match followed by
go-to-previous-match from the resulting cursor position selects the match
that was current (the match at whose start the cursor sat) before the
next-match call: the two navigations are mutual inverses under cyclic
wrap. -/
theorem next_prev_inverse_c8 (st : FinderState) (i : Nat)
    (hi : i < st.matchRanges.length)
    (hsort : List.Pairwise (fun a b => a.1 < b.1) st.matchRanges)
    (hlen : 1 < st.matchRanges.length)
    (hc : st.cursor = (st.matchRanges.get ⟨i, hi⟩).1) :
    (go_to_previous_match (go_to_next_match st)).selection =
      some (st.matchRanges.get ⟨i, hi⟩) := by
  have hne : st.matchRanges ≠ [] := by
    intro hnil
    rw [hnil] at hlen
    simp at hlen
  have hffa : findFirstAfter st.cursor st.matchRanges = st.matchRanges[i + 1]? := by
    rw [hc]
    exact findFirstAfter_sorted st.matchRanges hsort i hi
  have hm1 : (go_to_next_match st).matchRanges = st.matchRanges :=
    go_next_matchRanges st hne
  have hne1 : (go_to_next_match st).matchRanges ≠ [] := by
    rw [hm1]
    exact hne
  rw [go_prev_selection (go_to_next_match st) hne1,
    prevChoice_congr _ hm1 hne1 hne, go_next_cursor st hne]
  by_cases hi1 : i + 1 < st.matchRanges.length
  · have hnext : nextChoice st.cursor st.matchRanges hne =
        st.matchRanges.get ⟨i + 1, hi1⟩ := by
      unfold nextChoice
      rw [hffa, List.getElem?_eq_getElem hi1]
      rfl
    rw [hnext]
    unfold prevChoice
    rw [findFirstBefore_sorted_succ st.matchRanges hsort i hi1]
  · have hnone : st.matchRanges[i + 1]? = none :=
      List.getElem?_eq_none (by omega)
    have h0 : 0 < st.matchRanges.length := by omega
    have hnext : nextChoice st.cursor st.matchRanges hne =
        st.matchRanges.get ⟨0, h0⟩ := by
      unfold nextChoice
      rw [hffa, hnone]
      exact head_eq_get _ hne h0
    rw [hnext]
    unfold prevChoice
    rw [findFirstBefore_sorted_zero st.matchRanges hsort h0]
    have h2 : st.matchRanges.length - 1 < st.matchRanges.length := by omega
    rw [getLast_eq_get _ hne h2]
    have hfin : (⟨st.matchRanges.length - 1, h2⟩ : Fin st.matchRanges.length)
        = ⟨i, hi⟩ := by
      rw [Fin.mk_eq_mk]
      omega
    rw [hfin]

/-- Witness for claim C8: matches (0,3) and (4,7), cursor at the start of
the first match; next then previous returns to (0,3). -/
theorem next_prev_inverse_c8_witness :
    (go_to_previous_match (go_to_next_match
      ⟨['a', 'b', 'c', ' ', 'a', 'b', 'c'], [(0, 3), (4, 7)], none, 0, false, ""⟩
      )).selection = some (0, 3) := by
  have h := next_prev_inverse_c8
    ⟨['a', 'b', 'c', ' ', 'a', 'b', 'c'], [(0, 3), (4, 7)], none, 0, false, ""⟩
    0 (by decide) (by decide) (by decide) rfl
  exact h
